import Mathlib

/-!
Verification of the streaming event-protocol client of the operator console
(`CenterClient`): the frame decoder, event dispatcher, result reducer and the
two phase drivers `runAnalyze` / `runExport`.  The model follows the source
line by line; wall-clock timestamps prepended to log lines and the browser's
UTF-8 byte decoding are abstracted away (text level, message level).
-/

set_option maxHeartbeats 1000000

namespace UrunoStream

/-- Text is modelled as a list of characters.  `TextDecoder` with
`stream: true` reassembles multi-byte characters split across chunks, so the
model works on decoded text. -/
abbrev Str := List Char

/-- JSON values as produced by the `JSON.parse` builtin.  Numbers are
modelled as integers (no analysed behaviour involves fractional values);
object fields keep their textual order, as JavaScript objects do. -/
inductive JsonValue where
  | null : JsonValue
  | bool : Bool → JsonValue
  | num : Int → JsonValue
  | str : Str → JsonValue
  | arr : List JsonValue → JsonValue
  | obj : List (Str × JsonValue) → JsonValue
deriving Repr

/-- JavaScript property access `o[k]`: a field of an object, `undefined`
(here `none`) on every other value and on a missing key. -/
def getField : JsonValue → Str → Option JsonValue
  | .obj fl, k => (fl.find? (fun p => p.1 == k)).map (fun p => p.2)
  | _, _ => none

/-- JavaScript truthiness of a possibly-undefined value: `undefined`,
`null`, `false`, `0` and `""` are falsy, everything else truthy. -/
def truthy : Option JsonValue → Bool
  | none => false
  | some .null => false
  | some (.bool b) => b
  | some (.num n) => n != 0
  | some (.str s) => !s.isEmpty
  | some (.arr _) => true
  | some (.obj _) => true

/-- The guard `typeof data === "object" && data !== null`: objects and
arrays pass, everything else (including `undefined` and `null`) fails. -/
def isObjLike : Option JsonValue → Bool
  | some (.obj _) => true
  | some (.arr _) => true
  | _ => false

/-- `ev === "<kind>"`: strict equality against a string literal holds
exactly when the value is a string with the same characters. -/
def isEventKind (ev : Option JsonValue) (k : Str) : Bool :=
  match ev with
  | some (.str s) => s == k
  | _ => false

/-- JavaScript strict equality `===` on parsed JSON values.  Primitives
compare by value.  Objects and arrays compare by reference in JavaScript;
values reaching this comparison always come from distinct `JSON.parse`
calls, hence are never identical, so the object cases are `false`. -/
def jsStrictEq : JsonValue → JsonValue → Bool
  | .null, .null => true
  | .bool a, .bool b => a == b
  | .num a, .num b => a == b
  | .str a, .str b => a == b
  | _, _ => false

/-- Characters removed by JavaScript `String.prototype.trim` (the common
ASCII whitespace; the full Unicode white-space set is not exercised). -/
def isWsChar (c : Char) : Bool :=
  c == ' ' || c == '\t' || c == '\n' || c == '\r' || c == '\x0b' || c == '\x0c'

/-- `line.trim()`: strip whitespace from both ends. -/
def jsTrim (s : Str) : Str :=
  ((s.dropWhile isWsChar).reverse.dropWhile isWsChar).reverse

/-- `part.split(/\n/)`: split at every newline (single-character
separator keeps all empty pieces, as the regex split does). -/
def splitNl : Str → List Str
  | [] => [[]]
  | c :: rest =>
    let ps := splitNl rest
    if c = '\n' then [] :: ps
    else
      match ps with
      | [] => [[c]]
      | p :: ps' => (c :: p) :: ps'

/-- `buf.split("\n\n")`: split at each leftmost non-overlapping occurrence
of the blank-line delimiter, keeping empty pieces.  Always non-empty. -/
def splitOnNN : Str → List Str
  | [] => [[]]
  | [c] => [[c]]
  | c1 :: c2 :: rest =>
    if c1 = '\n' ∧ c2 = '\n' then [] :: splitOnNN rest
    else
      match splitOnNN (c2 :: rest) with
      | [] => [[c1]]
      | p :: ps => (c1 :: p) :: ps

/-- The last element of a list of parts (the piece `parts.pop()` removes);
`splitOnNN` never returns `[]`, so the default is never used. -/
def lastPart : List Str → Str
  | [] => []
  | [p] => p
  | _ :: p :: ps => lastPart (p :: ps)

/-- One decoding step of the accumulation buffer: the complete frames
(every part but the last) and the retained remainder (the last part). -/
def extract (s : Str) : List Str × Str :=
  ((splitOnNN s).dropLast, lastPart (splitOnNN s))

/-- Folding `extract` over a whole sequence of chunks starting from a given
buffer: all frames delivered, in order, with the final leftover buffer. -/
def feedAll (buf : Str) : List Str → List Str × Str
  | [] => ([], buf)
  | c :: cs =>
    let r := extract (buf ++ c)
    let r2 := feedAll r.2 cs
    (r.1 ++ r2.1, r2.2)

mutual
/-- `Array.prototype.toString`, used by `String(x)` on arrays: elements
joined with commas, `null` rendering as the empty string. -/
def jsStrArr : List JsonValue → Str
  | [] => []
  | [x] => jsStrElem x
  | x :: y :: xs => jsStrElem x ++ ',' :: jsStrArr (y :: xs)

/-- Stringification of one array element inside `Array.toString`. -/
def jsStrElem : JsonValue → Str
  | .null => []
  | .bool true => "true".toList
  | .bool false => "false".toList
  | .num n => (toString n).toList
  | .str s => s
  | .arr xs => jsStrArr xs
  | .obj _ => "[object Object]".toList
end

/-- The `String(x)` conversion applied to a possibly-undefined value, as in
the `dbg` and generic log branches. -/
def jsToStr : Option JsonValue → Str
  | none => "undefined".toList
  | some .null => "null".toList
  | some (.bool true) => "true".toList
  | some (.bool false) => "false".toList
  | some (.num n) => (toString n).toList
  | some (.str s) => s
  | some (.arr xs) => jsStrArr xs
  | some (.obj _) => "[object Object]".toList

/-- Left brace character (ASCII 123). -/
def lbrace : Char := Char.ofNat 123

/-- Right brace character (ASCII 125). -/
def rbrace : Char := Char.ofNat 125

/-- JSON string escaping as performed by `JSON.stringify` (quote,
backslash and the common control characters). -/
def escapeChar (c : Char) : Str :=
  if c = '"' then ['\\', '"']
  else if c = '\\' then ['\\', '\\']
  else if c = '\n' then ['\\', 'n']
  else if c = '\r' then ['\\', 'r']
  else if c = '\t' then ['\\', 't']
  else [c]

/-- Escape a whole string for `JSON.stringify`. -/
def escapeJson (s : Str) : Str := ((s.map escapeChar).foldr (· ++ ·) [])

mutual
/-- `JSON.stringify` on a parsed JSON value. -/
def jsonStringify : JsonValue → Str
  | .null => "null".toList
  | .bool true => "true".toList
  | .bool false => "false".toList
  | .num n => (toString n).toList
  | .str s => '"' :: escapeJson s ++ ['"']
  | .arr xs => '[' :: jsonStringifyArr xs ++ [']']
  | .obj fl => lbrace :: jsonStringifyFields fl ++ [rbrace]

/-- `JSON.stringify` of array elements, comma separated. -/
def jsonStringifyArr : List JsonValue → Str
  | [] => []
  | [x] => jsonStringify x
  | x :: y :: xs => jsonStringify x ++ ',' :: jsonStringifyArr (y :: xs)

/-- `JSON.stringify` of object fields, comma separated. -/
def jsonStringifyFields : List (Str × JsonValue) → Str
  | [] => []
  | [(k, v)] => '"' :: escapeJson k ++ '"' :: ':' :: jsonStringify v
  | (k, v) :: f :: fs =>
    ('"' :: escapeJson k ++ '"' :: ':' :: jsonStringify v) ++ ',' :: jsonStringifyFields (f :: fs)
end

/-- A generated-artifact link `{name, url}`; the stored url is the raw
field value taken from the payload. -/
structure FinalLink where
  name : Str
  url : JsonValue

/-- The component state touched by the stream client: the log sequence,
the result slot (`response`), the final links, the cross-render
`streamingReceivedRef` flag and the surfaced error message.  A log line is
modelled by its message; the wall-clock timestamp `pushLog` prepends is
ambient and abstracted away. -/
structure AppState where
  logs : List Str
  response : Option JsonValue
  finalLinks : List FinalLink
  streamingReceived : Bool
  error : Option Str

/-- `pushLog`: append one line to the log sequence. -/
def pushLog (s : AppState) (msg : Str) : AppState :=
  { s with logs := s.logs ++ [msg] }

/-- The two phases driving the shared reducer code. -/
inductive Phase where
  | analyze : Phase
  | export : Phase

def dataMarker : Str := ['d', 'a', 't', 'a', ':']
def eventKey : Str := ['e', 'v', 'e', 'n', 't']
def dataKey : Str := ['d', 'a', 't', 'a']
def dbgKind : Str := ['d', 'b', 'g']
def resultKind : Str := ['r', 'e', 's', 'u', 'l', 't']
def doneKind : Str := ['d', 'o', 'n', 'e']
def ocrUrlKey : Str := "ocr_snapshot_url".toList
def outUrlKey : Str := "output_spreadsheet_url".toList
def debugLogsKey : Str := "debug_logs".toList
def makerCdsKey : Str := "maker_cds".toList
def beTag : Str := "[BE] ".toList
def ocrLinkName : Str := "OCR結果のスプレッドシート".toList
def sheetLinkName : Str := "メーカーごとの各種依頼書スプレッドシート".toList
def doneMsgAnalyze : Str := "バックエンド処理が完了しました".toList
def doneMsgExport : Str := "スプレッドシートの生成が完了しました".toList
def errNoCenter : Str := "センターIDが指定されていません。".toList
def errNoFiles : Str := "OCR対象ファイルを選択してください。".toList
def msgAnalyzeStart : Str := "解析を開始しました".toList
def msgAnalyzeError : Str := "エラーが発生しました".toList
def msgExportStart : Str := "依頼書スプレッドシートの生成を開始します".toList
def errNoResult : Str := "解析結果がありません。".toList
def msgExportError : Str := "スプレッドシート生成中にエラーが発生しました".toList
def errNoStream : Str := "レスポンスのストリームが取得できませんでした".toList

/-- The message of the generic branch:
`` `[BE:${String(ev)}] ${JSON.stringify(data)}` `` (`JSON.stringify`
returns undefined on `undefined`, which the template renders as the text
`undefined`). -/
def genericMsg (ev data : Option JsonValue) : Str :=
  "[BE:".toList ++ jsToStr ev ++ "] ".toList ++
    (match data with
     | none => "undefined".toList
     | some v => jsonStringify v)

/-- The `[BE] `-tagged lines produced from a terminal result's
`debug_logs` array: the array's string elements, in order (non-strings are
filtered out; a missing or non-array field contributes nothing). -/
def debugLines (j : JsonValue) : List Str :=
  match getField j debugLogsKey with
  | some (.arr xs) =>
    xs.filterMap (fun x => match x with | .str s => some (beTag ++ s) | _ => none)
  | _ => []

/-- The terminal-log fallback: append the `debug_logs` lines only when no
streamed `dbg` event has been received (the `streamingReceivedRef` check);
appending the empty list models the skipped `setLogs` when there are no
string elements. -/
def appendDebugLogs (s : AppState) (j : JsonValue) : AppState :=
  if s.streamingReceived then s
  else { s with logs := s.logs ++ debugLines j }

/-- The `result` branch of the analyze phase: adopt the payload wholesale
as the response, push a link for each truthy known url field (no duplicate
check), then the `debug_logs` fallback. -/
def handleResultAnalyze (s : AppState) (j : JsonValue) : AppState :=
  let s := { s with response := some j }
  let s :=
    if truthy (getField j ocrUrlKey) then
      { s with finalLinks :=
          s.finalLinks ++ [⟨ocrLinkName, (getField j ocrUrlKey).getD .null⟩] }
    else s
  let s :=
    if truthy (getField j outUrlKey) then
      { s with finalLinks :=
          s.finalLinks ++ [⟨sheetLinkName, (getField j outUrlKey).getD .null⟩] }
    else s
  appendDebugLogs s j

/-- The object spread `{...prev, k: v}` used by the export phase: update
the field in place if present, else append it.  The stored response is
always an object or an array there; for an array the numeric index keys
are materialised, and a primitive spread keeps no fields. -/
def setKey (r : JsonValue) (k : Str) (v : JsonValue) : JsonValue :=
  match r with
  | .obj fl =>
    if fl.any (fun p => p.1 == k) then
      .obj (fl.map (fun p => if p.1 == k then (k, v) else p))
    else .obj (fl ++ [(k, v)])
  | .arr xs =>
    .obj ((((List.range xs.length).map (fun i => (toString i).toList)).zip xs) ++ [(k, v)])
  | _ => .obj [(k, v)]

/-- The `result` branch of the export phase: when the payload carries a
truthy `output_spreadsheet_url`, merge only that field over an existing
response (`prev ? {...prev, output_spreadsheet_url} : prev`) and insert
the link unless its url is already present; then the `debug_logs`
fallback. -/
def handleResultExport (s : AppState) (j : JsonValue) : AppState :=
  let v := getField j outUrlKey
  let s :=
    if truthy v then
      let u := v.getD .null
      let s := { s with response := s.response.map (fun r => setKey r outUrlKey u) }
      if s.finalLinks.any (fun item => jsStrictEq item.url u) then s
      else { s with finalLinks := s.finalLinks ++ [⟨sheetLinkName, u⟩] }
    else s
  appendDebugLogs s j

/-- Dispatch of one trimmed line of a frame.  Returns the new state and
whether this line was a `done` event (`finished = true; break`).
Comment lines and non-data lines are skipped; a data line's payload is
parsed by `parse` (the `JSON.parse` builtin, `none` = throw), a parse
failure degrading to a raw `[BE]` log line. -/
def processLine (parse : Str → Option JsonValue) (ph : Phase) (s : AppState)
    (line : Str) : AppState × Bool :=
  if [':'].isPrefixOf line then (s, false)
  else if !(dataMarker.isPrefixOf line) then (s, false)
  else
    let payloadRaw := jsTrim (line.drop dataMarker.length)
    match parse payloadRaw with
    | none => (pushLog s (beTag ++ payloadRaw), false)
    | some payload =>
      let ev := getField payload eventKey
      let data := getField payload dataKey
      if isEventKind ev dbgKind then
        (pushLog { s with streamingReceived := true } (beTag ++ jsToStr data), false)
      else if isEventKind ev resultKind then
        (if isObjLike data then
          match ph with
          | .analyze => handleResultAnalyze s (data.getD .null)
          | .export => handleResultExport s (data.getD .null)
         else s, false)
      else if isEventKind ev doneKind then
        (pushLog s (match ph with
          | .analyze => doneMsgAnalyze
          | .export => doneMsgExport), true)
      else
        (pushLog s (genericMsg ev data), false)

/-- The `for (const line of lines)` loop: dispatch lines in order,
breaking right after a `done` line. -/
def processLines (parse : Str → Option JsonValue) (ph : Phase) :
    AppState → List Str → AppState × Bool
  | s, [] => (s, false)
  | s, l :: ls =>
    let r := processLine parse ph s l
    if r.2 then (r.1, true) else processLines parse ph r.1 ls

/-- The trimmed lines of one frame: `part.split(/\n/).map(l => l.trim())`. -/
def frameLines (part : Str) : List Str := (splitNl part).map jsTrim

/-- Dispatch of one complete frame. -/
def processPart (parse : Str → Option JsonValue) (ph : Phase) (s : AppState)
    (part : Str) : AppState × Bool :=
  processLines parse ph s (frameLines part)

/-- The `for (const part of parts)` loop: every extracted frame of the
batch is dispatched (a `done` only latches the flag; it does not stop the
part loop), and the flag is the disjunction over the batch. -/
def processParts (parse : Str → Option JsonValue) (ph : Phase) :
    AppState → List Str → AppState × Bool
  | s, [] => (s, false)
  | s, p :: ps =>
    let r := processPart parse ph s p
    let r2 := processParts parse ph r.1 ps
    (r2.1, r.2 || r2.2)

/-- Per-request session state: component state, the accumulation buffer
and the `finished` latch. -/
structure SessState where
  app : AppState
  buf : Str
  finished : Bool

/-- One iteration of the read loop body: append the chunk to the buffer,
split off all complete frames, retain the remainder, dispatch the
frames. -/
def processChunk (parse : Str → Option JsonValue) (ph : Phase)
    (ss : SessState) (chunk : Str) : SessState :=
  let parts := splitOnNN (ss.buf ++ chunk)
  let r := processParts parse ph ss.app parts.dropLast
  ⟨r.1, lastPart parts, ss.finished || r.2⟩

/-- The `while (!finished)` read loop over the arriving chunks; an
exhausted chunk list is the transport end (`done` from the reader). -/
def runChunks (parse : Str → Option JsonValue) (ph : Phase) :
    SessState → List Str → SessState
  | ss, [] => ss
  | ss, c :: cs =>
    if ss.finished then ss
    else runChunks parse ph (processChunk parse ph ss c) cs

/-- The transport outcome of a fetch: a non-success status with its body,
a missing stream body, or the stream's chunk sequence. -/
inductive Transport where
  | httpError : Nat → Str → Str → Transport
  | noBody : Transport
  | stream : List Str → Transport

/-- The inputs of the analyze phase: the identifying key and the selected
files (contents are opaque; only presence matters to the client logic). -/
structure AnalyzeInput where
  centerId : Str
  ocrFiles : List Str
  refFile : Option Str

/-- `` `${res.status} ${res.statusText} - ${text}` ``. -/
def httpErrMsg (status : Nat) (statusText body : Str) : Str :=
  (toString status).toList ++ ' ' :: statusText ++ " - ".toList ++ body

/-- `runAnalyze`: validate inputs (aborting with a message before any
network call — the returned flag records whether the request was issued),
then reset error, response, final links and logs, push the start line and
drive one streaming session against the analyze endpoint.  HTTP failure
and a missing body land in the catch: set the error, push the error
line. -/
def runAnalyze (parse : Str → Option JsonValue) (inp : AnalyzeInput)
    (s : AppState) (t : Transport) : AppState × Bool :=
  if inp.centerId.isEmpty then ({ s with error := some errNoCenter }, false)
  else if inp.ocrFiles.isEmpty then ({ s with error := some errNoFiles }, false)
  else
    let s := { s with error := none, response := none, finalLinks := [], logs := [] }
    let s := pushLog s msgAnalyzeStart
    match t with
    | .httpError st stx body =>
      (pushLog { s with error := some (httpErrMsg st stx body) } msgAnalyzeError, true)
    | .noBody =>
      (pushLog { s with error := some errNoStream } msgAnalyzeError, true)
    | .stream chunks =>
      ((runChunks parse .analyze ⟨s, [], false⟩ chunks).app, true)

/-- `codes.length` truthiness inside `canExport`: arrays and strings have
a length, anything else yields `undefined`, which is falsy. -/
def codeLenTruthy : JsonValue → Bool
  | .arr xs => !xs.isEmpty
  | .str cs => !cs.isEmpty
  | _ => false

/-- `canExport`: a response exists and
`Object.values(response.maker_cds ?? {})` has some entry with a truthy
length. -/
def canExport : Option JsonValue → Bool
  | none => false
  | some r =>
    match getField r makerCdsKey with
    | some (.obj fl) => fl.any (fun p => codeLenTruthy p.2)
    | some (.arr xs) => xs.any codeLenTruthy
    | _ => false

/-- `runExport`: abort with the validation message when no response or no
non-empty code grouping exists, otherwise push the start line and drive
one streaming session against the export endpoint. -/
def runExport (parse : Str → Option JsonValue) (s : AppState)
    (t : Transport) : AppState :=
  if s.response.isNone || !(canExport s.response) then
    { s with error := some errNoResult }
  else
    let s := { s with error := none }
    let s := pushLog s msgExportStart
    match t with
    | .httpError st stx body =>
      pushLog { s with error := some (httpErrMsg st stx body) } msgExportError
    | .noBody =>
      pushLog { s with error := some errNoStream } msgExportError
    | .stream chunks =>
      (runChunks parse .export ⟨s, [], false⟩ chunks).app

/-- Whether a line, dispatched on its own, is a `done` data line (the only
kind of line that sets the `finished` latch); this depends only on the
line's text and the parse function, not on the component state. -/
def lineDone (parse : Str → Option JsonValue) (l : Str) : Bool :=
  if [':'].isPrefixOf l then false
  else if !(dataMarker.isPrefixOf l) then false
  else
    match parse (jsTrim (l.drop dataMarker.length)) with
    | none => false
    | some payload => isEventKind (getField payload eventKey) doneKind

/-- Whether some line of a frame is a `done` data line. -/
def partDone (parse : Str → Option JsonValue) (p : Str) : Bool :=
  (frameLines p).any (lineDone parse)

/-- The state of the component right after mount: no logs, no response,
no links, the streamed-log flag clear, no error. -/
def s0 : AppState := ⟨[], none, [], false, none⟩

/-- A well-formed analyze input (non-empty key, one file). -/
def inp1 : AnalyzeInput := ⟨['c'], [['f']], none⟩

/-- The wire envelope `{"event": kind, "data": d}` as a parsed value. -/
def envelope (kind : Str) (d : JsonValue) : JsonValue :=
  .obj [(eventKey, .str kind), (dataKey, d)]

def jDone : Str := "\x7b\"event\":\"done\",\"data\":null\x7d".toList
def jDbgLate : Str := "\x7b\"event\":\"dbg\",\"data\":\"late\"\x7d".toList
def jDbgOne : Str := "\x7b\"event\":\"dbg\",\"data\":\"one\"\x7d".toList
def jDbgTwo : Str := "\x7b\"event\":\"dbg\",\"data\":\"two\"\x7d".toList
def jResA : Str := "\x7b\"event\":\"result\",\"data\":\x7b\"a\":1\x7d\x7d".toList
def jResB : Str := "\x7b\"event\":\"result\",\"data\":\x7b\"b\":2\x7d\x7d".toList
def jResUrls : Str :=
  "\x7b\"event\":\"result\",\"data\":\x7b\"ocr_snapshot_url\":\"u\",\"output_spreadsheet_url\":\"u\"\x7d\x7d".toList
def jResDebug : Str :=
  "\x7b\"event\":\"result\",\"data\":\x7b\"debug_logs\":[\"x\"]\x7d\x7d".toList
def jResOut : Str :=
  "\x7b\"event\":\"result\",\"data\":\x7b\"output_spreadsheet_url\":\"w\"\x7d\x7d".toList

def vResA : JsonValue := envelope resultKind (.obj [(['a'], .num 1)])
def vResB : JsonValue := envelope resultKind (.obj [(['b'], .num 2)])
def vResUrls : JsonValue :=
  envelope resultKind (.obj [(ocrUrlKey, .str ['u']), (outUrlKey, .str ['u'])])
def vResDebug : JsonValue :=
  envelope resultKind (.obj [(debugLogsKey, .arr [.str ['x']])])
def vResOut : JsonValue := envelope resultKind (.obj [(outUrlKey, .str ['w'])])

/-- Stand-in for the `JSON.parse` builtin, tabulated on the payload texts
exercised by the concrete scenarios below; every other text is a parse
failure (`none`), as `JSON.parse` throwing. -/
def demoParse (s : Str) : Option JsonValue :=
  if s = jDone then some (envelope doneKind .null)
  else if s = jDbgLate then some (envelope dbgKind (.str "late".toList))
  else if s = jDbgOne then some (envelope dbgKind (.str "one".toList))
  else if s = jDbgTwo then some (envelope dbgKind (.str "two".toList))
  else if s = jResA then some vResA
  else if s = jResB then some vResB
  else if s = jResUrls then some vResUrls
  else if s = jResDebug then some vResDebug
  else if s = jResOut then some vResOut
  else none

/-- One complete wire frame carrying the given payload text. -/
def frameOf (payload : Str) : Str := "data: ".toList ++ payload ++ ['\n', '\n']

/-! Frame-decoder lemmas. -/

theorem splitOnNN_ne_nil (s : Str) : splitOnNN s ≠ [] := by
  match s with
  | [] => simp [splitOnNN]
  | [c] => simp [splitOnNN]
  | c1 :: c2 :: rest =>
    simp only [splitOnNN]
    split
    · simp
    · split <;> simp

theorem splitOnNN_eq_singleton : ∀ (s p : Str), splitOnNN s = [p] → p = s
  | [], p, h => by
    simp [splitOnNN] at h
    exact h
  | [c], p, h => by
    simp [splitOnNN] at h
    exact h.symm
  | c1 :: c2 :: rest, p, h => by
    by_cases hnl : c1 = '\n' ∧ c2 = '\n'
    · exfalso
      simp only [splitOnNN, if_pos hnl] at h
      have hne := splitOnNN_ne_nil rest
      cases hr : splitOnNN rest with
      | nil => exact hne hr
      | cons x xs => rw [hr] at h; simp at h
    · simp only [splitOnNN, if_neg hnl] at h
      cases hr : splitOnNN (c2 :: rest) with
      | nil => exact absurd hr (splitOnNN_ne_nil _)
      | cons q qs =>
        rw [hr] at h
        simp only at h
        have h1 : c1 :: q = p ∧ qs = [] := by
          constructor
          · exact (List.cons.injEq _ _ _ _ ▸ h).1
          · exact (List.cons.injEq _ _ _ _ ▸ h).2
        obtain ⟨h2, h3⟩ := h1
        subst h3
        have := splitOnNN_eq_singleton (c2 :: rest) q hr
        subst this
        exact h2.symm

theorem lastPart_cons_cons (p q : Str) (ps : List Str) :
    lastPart (p :: q :: ps) = lastPart (q :: ps) := rfl

theorem lastPart_append (xs ys : List Str) (h : ys ≠ []) :
    lastPart (xs ++ ys) = lastPart ys := by
  induction xs with
  | nil => rfl
  | cons x xs ih =>
    cases xs with
    | nil =>
      cases ys with
      | nil => exact absurd rfl h
      | cons y ys => rfl
    | cons x2 xs2 =>
      rw [List.cons_append, List.cons_append, lastPart_cons_cons, ← List.cons_append]
      exact ih

theorem splitOnNN_append : ∀ (a b : Str),
    splitOnNN (a ++ b) =
      (splitOnNN a).dropLast ++ splitOnNN (lastPart (splitOnNN a) ++ b)
  | [], b => by simp [splitOnNN, lastPart]
  | [c], b => by simp [splitOnNN, lastPart]
  | c1 :: c2 :: rest, b => by
    by_cases hnl : c1 = '\n' ∧ c2 = '\n'
    · have hne := splitOnNN_ne_nil rest
      have ih := splitOnNN_append rest b
      obtain ⟨l0, ls, hl⟩ : ∃ l0 ls, splitOnNN rest = l0 :: ls := by
        cases h : splitOnNN rest with
        | nil => exact absurd h hne
        | cons x xs => exact ⟨x, xs, rfl⟩
      rw [List.cons_append, List.cons_append]
      simp only [splitOnNN, if_pos hnl, hl]
      rw [hl] at ih
      rw [ih]
      cases ls with
      | nil =>
        have : l0 = rest := splitOnNN_eq_singleton rest l0 hl
        subst this
        simp [lastPart]
      | cons l1 ls2 =>
        simp [lastPart_cons_cons, List.dropLast_cons₂]
    · have hne := splitOnNN_ne_nil (c2 :: rest)
      obtain ⟨p, ps, hp⟩ : ∃ p ps, splitOnNN (c2 :: rest) = p :: ps := by
        cases h : splitOnNN (c2 :: rest) with
        | nil => exact absurd h hne
        | cons x xs => exact ⟨x, xs, rfl⟩
      have ha : splitOnNN (c1 :: c2 :: rest) = (c1 :: p) :: ps := by
        simp only [splitOnNN, if_neg hnl, hp]
      cases ps with
      | nil =>
        have hpe : p = c2 :: rest := splitOnNN_eq_singleton _ _ hp
        rw [ha]
        subst hpe
        simp [lastPart, List.dropLast]
      | cons p2 ps2 =>
        have ih := splitOnNN_append (c2 :: rest) b
        rw [hp] at ih
        simp only [List.cons_append] at ih
        have hQ : splitOnNN (c2 :: (rest ++ b)) =
            p :: ((p2 :: ps2).dropLast ++ splitOnNN (lastPart (p2 :: ps2) ++ b)) := by
          rw [ih]
          simp [lastPart_cons_cons, List.dropLast_cons₂]
        have hL : splitOnNN (c1 :: c2 :: (rest ++ b)) =
            (c1 :: p) :: ((p2 :: ps2).dropLast ++ splitOnNN (lastPart (p2 :: ps2) ++ b)) := by
          simp only [splitOnNN, if_neg hnl, hQ]
        rw [List.cons_append, List.cons_append, hL, ha]
        simp [lastPart_cons_cons, List.dropLast_cons₂]

theorem lastPart_no_delim : ∀ (s : Str),
    splitOnNN (lastPart (splitOnNN s)) = [lastPart (splitOnNN s)]
  | [] => by simp [splitOnNN, lastPart]
  | [c] => by simp [splitOnNN, lastPart]
  | c1 :: c2 :: rest => by
    by_cases hnl : c1 = '\n' ∧ c2 = '\n'
    · have hne := splitOnNN_ne_nil rest
      obtain ⟨l0, ls, hl⟩ : ∃ l0 ls, splitOnNN rest = l0 :: ls := by
        cases h : splitOnNN rest with
        | nil => exact absurd h hne
        | cons x xs => exact ⟨x, xs, rfl⟩
      have ih := lastPart_no_delim rest
      simp only [splitOnNN, if_pos hnl, hl] at ih ⊢
      rw [lastPart_cons_cons]
      exact ih
    · obtain ⟨p, ps, hp⟩ : ∃ p ps, splitOnNN (c2 :: rest) = p :: ps := by
        cases h : splitOnNN (c2 :: rest) with
        | nil => exact absurd h (splitOnNN_ne_nil _)
        | cons x xs => exact ⟨x, xs, rfl⟩
      have ha : splitOnNN (c1 :: c2 :: rest) = (c1 :: p) :: ps := by
        simp only [splitOnNN, if_neg hnl, hp]
      cases ps with
      | nil =>
        have hpe : p = c2 :: rest := splitOnNN_eq_singleton _ _ hp
        rw [ha]
        subst hpe
        simp only [lastPart]
        exact ha
      | cons p2 ps2 =>
        have ih := lastPart_no_delim (c2 :: rest)
        rw [hp] at ih
        rw [ha, lastPart_cons_cons]
        rw [lastPart_cons_cons] at ih
        exact ih

theorem feedAll_extract : ∀ (cs : List Str) (buf : Str),
    splitOnNN buf = [buf] → feedAll buf cs = extract (buf ++ cs.flatten)
  | [], buf, h => by
    simp [feedAll, extract, h, lastPart]
  | c :: cs, buf, h => by
    have h2 := lastPart_no_delim (buf ++ c)
    have ih := feedAll_extract cs (lastPart (splitOnNN (buf ++ c))) h2
    simp only [feedAll, extract, List.flatten_cons] at ih ⊢
    rw [ih]
    have happ := splitOnNN_append (buf ++ c) cs.flatten
    rw [← List.append_assoc, happ,
      List.dropLast_append_of_ne_nil _ (splitOnNN_ne_nil _),
      lastPart_append _ _ (splitOnNN_ne_nil _)]

/-! Dispatcher lemmas: which lines set the `finished` latch is a function
of the line text alone. -/

theorem isEventKind_unique {ev : Option JsonValue} {k1 k2 : Str}
    (h1 : isEventKind ev k1 = true) (h2 : k1 ≠ k2) : isEventKind ev k2 = false := by
  cases ev with
  | none => rfl
  | some v =>
    cases v with
    | str s =>
      simp only [isEventKind] at h1 ⊢
      have hs : s = k1 := beq_iff_eq.mp h1
      subst hs
      simp [h2]
    | null => rfl
    | bool b => rfl
    | num n => rfl
    | arr xs => rfl
    | obj fl => rfl

theorem processLine_snd (parse : Str → Option JsonValue) (ph : Phase)
    (s : AppState) (l : Str) : (processLine parse ph s l).2 = lineDone parse l := by
  unfold processLine lineDone
  by_cases h1 : [':'].isPrefixOf l
  · simp [h1]
  · by_cases h2 : dataMarker.isPrefixOf l
    · cases hp : parse (jsTrim (l.drop dataMarker.length)) with
      | none => simp [h1, h2, hp]
      | some payload =>
        by_cases hd : isEventKind (getField payload eventKey) dbgKind
        · simp [h1, h2, hp, hd,
            isEventKind_unique hd (by decide : dbgKind ≠ doneKind)]
        · by_cases hr : isEventKind (getField payload eventKey) resultKind
          · simp [h1, h2, hp, hd, hr,
              isEventKind_unique hr (by decide : resultKind ≠ doneKind)]
          · by_cases hdone : isEventKind (getField payload eventKey) doneKind
            · simp [h1, h2, hp, hd, hr, hdone]
            · simp [h1, h2, hp, hd, hr, hdone]
    · simp [h1, h2]

theorem processLines_snd (parse : Str → Option JsonValue) (ph : Phase) :
    ∀ (ls : List Str) (s : AppState),
    (processLines parse ph s ls).2 = ls.any (lineDone parse)
  | [], s => by simp [processLines]
  | l :: ls, s => by
    simp only [processLines, List.any_cons]
    by_cases h : lineDone parse l
    · simp [processLine_snd, h]
    · simp [processLine_snd, h, processLines_snd parse ph ls]

theorem processParts_snd (parse : Str → Option JsonValue) (ph : Phase) :
    ∀ (ps : List Str) (s : AppState),
    (processParts parse ph s ps).2 = ps.any (partDone parse)
  | [], s => by simp [processParts]
  | p :: ps, s => by
    simp only [processParts, List.any_cons]
    rw [processParts_snd parse ph ps]
    simp [processPart, partDone, processLines_snd]

theorem processParts_append (parse : Str → Option JsonValue) (ph : Phase) :
    ∀ (ps qs : List Str) (s : AppState),
    processParts parse ph s (ps ++ qs) =
      ((processParts parse ph (processParts parse ph s ps).1 qs).1,
        (processParts parse ph s ps).2 ||
          (processParts parse ph (processParts parse ph s ps).1 qs).2)
  | [], qs, s => by simp [processParts]
  | p :: ps, qs, s => by
    simp only [List.cons_append, processParts, List.append_eq]
    rw [processParts_append parse ph ps qs]
    simp [Bool.or_assoc]

theorem runChunks_of_finished (parse : Str → Option JsonValue) (ph : Phase) :
    ∀ (cs : List Str) (ss : SessState), ss.finished = true →
    runChunks parse ph ss cs = ss
  | [], ss, _ => rfl
  | c :: cs, ss, h => by simp [runChunks, h]

/-- The read loop dispatches exactly the frames extracted from the whole
stream, as long as no frame before the last delivered one is a `done`
frame: the session state after the loop is the fold of the dispatcher over
the full frame sequence, independent of the chunking. -/
theorem runChunks_frames (parse : Str → Option JsonValue) (ph : Phase) :
    ∀ (cs : List Str) (b : Str) (s : AppState),
    splitOnNN b = [b] →
    (∀ p ∈ (feedAll b cs).1.dropLast, partDone parse p = false) →
    (runChunks parse ph ⟨s, b, false⟩ cs).app =
      (processParts parse ph s (feedAll b cs).1).1
  | [], b, s, hb, hd => by simp [runChunks, feedAll, processParts]
  | c :: cs, b, s, hb, hd => by
    have hbc := lastPart_no_delim (b ++ c)
    have step : runChunks parse ph ⟨s, b, false⟩ (c :: cs) =
        runChunks parse ph (processChunk parse ph ⟨s, b, false⟩ c) cs := by
      simp [runChunks]
    have hch : processChunk parse ph ⟨s, b, false⟩ c =
        ⟨(processParts parse ph s ((splitOnNN (b ++ c)).dropLast)).1,
          lastPart (splitOnNN (b ++ c)),
          (processParts parse ph s ((splitOnNN (b ++ c)).dropLast)).2⟩ := by
      simp [processChunk]
    have hfeed : (feedAll b (c :: cs)).1 =
        (splitOnNN (b ++ c)).dropLast ++
          (feedAll (lastPart (splitOnNN (b ++ c))) cs).1 := by
      simp [feedAll, extract]
    rw [hfeed] at hd
    rw [step, hch, hfeed]
    cases hd1 : (processParts parse ph s ((splitOnNN (b ++ c)).dropLast)).2 with
    | true =>
      -- a done frame occurred in this batch: the loop stops reading; no
      -- frame may remain, because only the last overall frame may be done
      have hG2 : (feedAll (lastPart (splitOnNN (b ++ c))) cs).1 = [] := by
        by_contra hne
        rw [processParts_snd] at hd1
        obtain ⟨p, hpmem, hpd⟩ := List.any_eq_true.mp hd1
        have hfalse : partDone parse p = false := by
          apply hd
          rw [List.dropLast_append_of_ne_nil _ hne]
          exact List.mem_append_left _ hpmem
        rw [hfalse] at hpd
        exact Bool.false_ne_true hpd
      rw [hG2, List.append_nil]
      rw [runChunks_of_finished parse ph cs _ rfl]
    | false =>
      have hd2 : ∀ p ∈ (feedAll (lastPart (splitOnNN (b ++ c))) cs).1.dropLast,
          partDone parse p = false := by
        intro p hp
        apply hd
        have hne : (feedAll (lastPart (splitOnNN (b ++ c))) cs).1 ≠ [] := by
          intro h0
          rw [h0] at hp
          simp at hp
        rw [List.dropLast_append_of_ne_nil _ hne]
        exact List.mem_append_right _ hp
      have ih := runChunks_frames parse ph cs (lastPart (splitOnNN (b ++ c)))
        (processParts parse ph s ((splitOnNN (b ++ c)).dropLast)).1 hbc hd2
      rw [ih]
      rw [processParts_append parse ph ((splitOnNN (b ++ c)).dropLast)
        (feedAll (lastPart (splitOnNN (b ++ c))) cs).1 s]

/-! Append-only log lemmas. -/

theorem pushLog_logs (s : AppState) (m : Str) : s.logs <+: (pushLog s m).logs :=
  List.prefix_append _ _

theorem appendDebugLogs_logs (s : AppState) (j : JsonValue) :
    s.logs <+: (appendDebugLogs s j).logs := by
  unfold appendDebugLogs
  split
  · exact List.prefix_refl _
  · exact List.prefix_append _ _

theorem appendDebugLogs_logs_of (s' : AppState) (j : JsonValue) (L : List Str)
    (h : s'.logs = L) : L <+: (appendDebugLogs s' j).logs :=
  h ▸ appendDebugLogs_logs s' j

theorem handleResultAnalyze_logs (s : AppState) (j : JsonValue) :
    s.logs <+: (handleResultAnalyze s j).logs := by
  simp only [handleResultAnalyze]
  split <;> split <;> exact appendDebugLogs_logs_of _ _ _ rfl

theorem pushLog_logs_of (s' : AppState) (m : Str) (L : List Str)
    (h : s'.logs = L) : L <+: (pushLog s' m).logs :=
  h ▸ pushLog_logs s' m

theorem handleResultExport_logs (s : AppState) (j : JsonValue) :
    s.logs <+: (handleResultExport s j).logs := by
  simp only [handleResultExport]
  split
  · split
    · exact appendDebugLogs_logs_of _ _ _ rfl
    · exact appendDebugLogs_logs_of _ _ _ rfl
  · exact appendDebugLogs_logs_of _ _ _ rfl

theorem processLine_logs (parse : Str → Option JsonValue) (ph : Phase)
    (s : AppState) (l : Str) : s.logs <+: (processLine parse ph s l).1.logs := by
  simp only [processLine]
  split
  · exact List.prefix_refl _
  · split
    · exact List.prefix_refl _
    · split
      · exact pushLog_logs_of _ _ _ rfl
      · split
        · exact pushLog_logs_of _ _ _ rfl
        · split
          · dsimp only
            split
            · split
              · exact handleResultAnalyze_logs _ _
              · exact handleResultExport_logs _ _
            · exact List.prefix_refl _
          · split
            · exact pushLog_logs_of _ _ _ rfl
            · exact pushLog_logs_of _ _ _ rfl

theorem processLines_logs (parse : Str → Option JsonValue) (ph : Phase) :
    ∀ (ls : List Str) (s : AppState),
    s.logs <+: (processLines parse ph s ls).1.logs
  | [], s => List.prefix_refl _
  | l :: ls, s => by
    simp only [processLines]
    split
    · exact processLine_logs parse ph s l
    · exact (processLine_logs parse ph s l).trans
        (processLines_logs parse ph ls _)

theorem processParts_logs (parse : Str → Option JsonValue) (ph : Phase) :
    ∀ (ps : List Str) (s : AppState),
    s.logs <+: (processParts parse ph s ps).1.logs
  | [], s => List.prefix_refl _
  | p :: ps, s => by
    simp only [processParts]
    exact (processLines_logs parse ph _ s).trans (processParts_logs parse ph ps _)

theorem runChunks_logs (parse : Str → Option JsonValue) (ph : Phase) :
    ∀ (cs : List Str) (ss : SessState),
    ss.app.logs <+: (runChunks parse ph ss cs).app.logs
  | [], ss => List.prefix_refl _
  | c :: cs, ss => by
    simp only [runChunks]
    split
    · exact List.prefix_refl _
    · have h1 : ss.app.logs <+: (processChunk parse ph ss c).app.logs := by
        simp only [processChunk]
        exact processParts_logs parse ph _ _
      exact h1.trans (runChunks_logs parse ph cs _)

theorem runChunks_logs_of (parse : Str → Option JsonValue) (ph : Phase)
    (cs : List Str) (ss : SessState) (L : List Str) (h : ss.app.logs = L) :
    L <+: (runChunks parse ph ss cs).app.logs :=
  h ▸ runChunks_logs parse ph cs ss

theorem runExport_logs (parse : Str → Option JsonValue) (s : AppState)
    (t : Transport) : s.logs <+: (runExport parse s t).logs := by
  simp only [runExport]
  split
  · exact List.prefix_refl _
  · cases t with
    | httpError st stx body =>
      dsimp only
      have h1 : s.logs <+: (pushLog { s with error := none } msgExportStart).logs :=
        pushLog_logs_of _ _ _ rfl
      exact h1.trans (pushLog_logs_of _ _ _ rfl)
    | noBody =>
      dsimp only
      have h1 : s.logs <+: (pushLog { s with error := none } msgExportStart).logs :=
        pushLog_logs_of _ _ _ rfl
      exact h1.trans (pushLog_logs_of _ _ _ rfl)
    | stream chunks =>
      dsimp only
      have h1 : s.logs <+: (pushLog { s with error := none } msgExportStart).logs :=
        pushLog_logs_of _ _ _ rfl
      exact h1.trans (runChunks_logs parse .export chunks ⟨_, [], false⟩)

/-! Evaluation of the dispatcher on a data line. -/

theorem colon_not_prefix_data (rest : Str) :
    ([':'] : Str).isPrefixOf (dataMarker ++ rest) = false := by
  simp only [dataMarker, List.cons_append, List.isPrefixOf]
  simp [(by decide : (':' == 'd') = false)]

theorem dataMarker_prefix (rest : Str) :
    dataMarker.isPrefixOf (dataMarker ++ rest) = true :=
  List.isPrefixOf_iff_prefix.mpr (List.prefix_append _ _)

theorem drop_dataMarker (rest : Str) :
    (dataMarker ++ rest).drop dataMarker.length = rest :=
  List.drop_left _ _

theorem processLine_data_none (parse : Str → Option JsonValue) (ph : Phase)
    (s : AppState) (rest : Str) (h : parse (jsTrim rest) = none) :
    processLine parse ph s (dataMarker ++ rest) =
      (pushLog s (beTag ++ jsTrim rest), false) := by
  simp only [processLine, colon_not_prefix_data, dataMarker_prefix,
    drop_dataMarker, h, Bool.false_eq_true, if_false, Bool.not_true, if_true]

theorem processLine_data_dbg (parse : Str → Option JsonValue) (ph : Phase)
    (s : AppState) (rest : Str) (payload : JsonValue)
    (h : parse (jsTrim rest) = some payload)
    (hev : getField payload eventKey = some (.str dbgKind)) :
    processLine parse ph s (dataMarker ++ rest) =
      (pushLog { s with streamingReceived := true }
        (beTag ++ jsToStr (getField payload dataKey)), false) := by
  simp only [processLine, colon_not_prefix_data, dataMarker_prefix,
    drop_dataMarker, h, hev, Bool.false_eq_true, if_false, Bool.not_true, if_true]
  simp [isEventKind]

theorem processLine_data_result (parse : Str → Option JsonValue) (ph : Phase)
    (s : AppState) (rest : Str) (payload j : JsonValue)
    (h : parse (jsTrim rest) = some payload)
    (hev : getField payload eventKey = some (.str resultKind))
    (hdata : getField payload dataKey = some j)
    (hobj : isObjLike (some j) = true) :
    processLine parse ph s (dataMarker ++ rest) =
      (match ph with
       | .analyze => handleResultAnalyze s j
       | .export => handleResultExport s j, false) := by
  simp only [processLine, colon_not_prefix_data, dataMarker_prefix,
    drop_dataMarker, h, hev, hdata, Bool.false_eq_true, if_false,
    Bool.not_true, if_true]
  simp [isEventKind, hobj, (by decide : (resultKind == dbgKind) = false),
    (by decide : (resultKind == resultKind) = true)]

theorem processLine_data_result_other (parse : Str → Option JsonValue)
    (ph : Phase) (s : AppState) (rest : Str) (payload : JsonValue)
    (h : parse (jsTrim rest) = some payload)
    (hev : getField payload eventKey = some (.str resultKind))
    (hobj : isObjLike (getField payload dataKey) = false) :
    processLine parse ph s (dataMarker ++ rest) = (s, false) := by
  simp only [processLine, colon_not_prefix_data, dataMarker_prefix,
    drop_dataMarker, h, hev, Bool.false_eq_true, if_false,
    Bool.not_true, if_true]
  simp [isEventKind, hobj, (by decide : (resultKind == dbgKind) = false),
    (by decide : (resultKind == resultKind) = true)]

theorem processLine_data_done (parse : Str → Option JsonValue) (ph : Phase)
    (s : AppState) (rest : Str) (payload : JsonValue)
    (h : parse (jsTrim rest) = some payload)
    (hev : getField payload eventKey = some (.str doneKind)) :
    processLine parse ph s (dataMarker ++ rest) =
      (pushLog s (match ph with
        | .analyze => doneMsgAnalyze
        | .export => doneMsgExport), true) := by
  simp only [processLine, colon_not_prefix_data, dataMarker_prefix,
    drop_dataMarker, h, hev, Bool.false_eq_true, if_false,
    Bool.not_true, if_true]
  simp [isEventKind, (by decide : (doneKind == dbgKind) = false),
    (by decide : (doneKind == resultKind) = false),
    (by decide : (doneKind == doneKind) = true)]

/-! Field-level behaviour of the result handlers. -/

theorem appendDebugLogs_response (s : AppState) (j : JsonValue) :
    (appendDebugLogs s j).response = s.response := by
  unfold appendDebugLogs; split <;> rfl

theorem appendDebugLogs_finalLinks (s : AppState) (j : JsonValue) :
    (appendDebugLogs s j).finalLinks = s.finalLinks := by
  unfold appendDebugLogs; split <;> rfl

theorem appendDebugLogs_flag (s : AppState) (j : JsonValue) :
    (appendDebugLogs s j).streamingReceived = s.streamingReceived := by
  unfold appendDebugLogs; split <;> rfl

theorem appendDebugLogs_logs_eq (s : AppState) (j : JsonValue) :
    (appendDebugLogs s j).logs =
      s.logs ++ (if s.streamingReceived then [] else debugLines j) := by
  unfold appendDebugLogs
  split
  · next h => simp [h]
  · next h => simp [h]

theorem handleResultAnalyze_response (s : AppState) (j : JsonValue) :
    (handleResultAnalyze s j).response = some j := by
  simp only [handleResultAnalyze]
  split <;> split <;> simp [appendDebugLogs_response]

theorem handleResultAnalyze_flag (s : AppState) (j : JsonValue) :
    (handleResultAnalyze s j).streamingReceived = s.streamingReceived := by
  simp only [handleResultAnalyze]
  split <;> split <;> simp [appendDebugLogs_flag]

theorem handleResultAnalyze_logs_eq (s : AppState) (j : JsonValue) :
    (handleResultAnalyze s j).logs =
      s.logs ++ (if s.streamingReceived then [] else debugLines j) := by
  simp only [handleResultAnalyze]
  split <;> split <;> simp [appendDebugLogs_logs_eq]

theorem handleResultExport_response (s : AppState) (j : JsonValue) :
    (handleResultExport s j).response =
      (if truthy (getField j outUrlKey) then
        s.response.map
          (fun r => setKey r outUrlKey ((getField j outUrlKey).getD .null))
       else s.response) := by
  simp only [handleResultExport]
  split
  · split <;> simp [appendDebugLogs_response]
  · simp [appendDebugLogs_response]

theorem handleResultExport_flag (s : AppState) (j : JsonValue) :
    (handleResultExport s j).streamingReceived = s.streamingReceived := by
  simp only [handleResultExport]
  split
  · split <;> simp [appendDebugLogs_flag]
  · simp [appendDebugLogs_flag]

theorem handleResultExport_logs_eq (s : AppState) (j : JsonValue) :
    (handleResultExport s j).logs =
      s.logs ++ (if s.streamingReceived then [] else debugLines j) := by
  simp only [handleResultExport]
  split
  · split <;> simp [appendDebugLogs_logs_eq]
  · simp [appendDebugLogs_logs_eq]

theorem handleResultExport_finalLinks_mem (s : AppState) (j : JsonValue)
    (u : Str) (hurl : getField j outUrlKey = some (.str u))
    (hmem : s.finalLinks.any (fun item => jsStrictEq item.url (.str u)) = true) :
    (handleResultExport s j).finalLinks = s.finalLinks := by
  simp only [handleResultExport, hurl]
  split
  · split
    · simp [appendDebugLogs_finalLinks]
    · next hany =>
      exfalso
      apply hany
      simpa using hmem
  · simp [appendDebugLogs_finalLinks]

/-! Lookup behaviour of the object-spread update `setKey`. -/

theorem find_set_map (k k' : Str) (v : JsonValue) (h : (k == k') = false) :
    ∀ (fl : List (Str × JsonValue)),
    (((fl.map (fun p => if p.1 == k then (k, v) else p)).find?
        (fun p => p.1 == k')).map (fun p => p.2))
      = ((fl.find? (fun p => p.1 == k')).map (fun p => p.2))
  | [] => rfl
  | p :: ps => by
    by_cases hp : (p.1 == k) = true
    · have hp1 : p.1 = k := eq_of_beq hp
      have hpk' : (p.1 == k') = false := by rw [hp1]; exact h
      simp only [List.map_cons]
      rw [if_pos hp]
      simp only [List.find?_cons, h, hpk']
      exact find_set_map k k' v h ps
    · simp only [List.map_cons]
      rw [if_neg hp]
      cases hq : (p.1 == k') with
      | true => simp [List.find?_cons, hq]
      | false =>
        simp only [List.find?_cons, hq]
        exact find_set_map k k' v h ps

theorem find_append_single (k k' : Str) (v : JsonValue) (h : (k == k') = false) :
    ∀ (fl : List (Str × JsonValue)),
    (((fl ++ [(k, v)]).find? (fun p => p.1 == k')).map (fun p => p.2))
      = ((fl.find? (fun p => p.1 == k')).map (fun p => p.2))
  | [] => by simp [List.find?_cons, h]
  | p :: ps => by
    rw [List.cons_append]
    cases hq : (p.1 == k') with
    | true => simp [List.find?_cons, hq]
    | false =>
      simp only [List.find?_cons, hq]
      exact find_append_single k k' v h ps

theorem setKey_getField_ne (fl : List (Str × JsonValue)) (k k' : Str)
    (v : JsonValue) (h : k' ≠ k) :
    getField (setKey (.obj fl) k v) k' = getField (.obj fl) k' := by
  have hb : (k == k') = false := beq_eq_false_iff_ne.mpr (Ne.symm h)
  simp only [setKey]
  split
  · simp only [getField]
    exact find_set_map k k' v hb fl
  · simp only [getField]
    exact find_append_single k k' v hb fl

/-! The streamed-log flag is never reset: it is monotone under every
dispatch step and survives a new analyze invocation. -/

theorem processLine_flag_mono (parse : Str → Option JsonValue) (ph : Phase)
    (s : AppState) (l : Str) (h : s.streamingReceived = true) :
    (processLine parse ph s l).1.streamingReceived = true := by
  simp only [processLine]
  split
  · exact h
  · split
    · exact h
    · split
      · exact h
      · split
        · rfl
        · split
          · dsimp only
            split
            · split
              · rw [handleResultAnalyze_flag]; exact h
              · rw [handleResultExport_flag]; exact h
            · exact h
          · split
            · exact h
            · exact h

theorem processLines_flag_mono (parse : Str → Option JsonValue) (ph : Phase) :
    ∀ (ls : List Str) (s : AppState), s.streamingReceived = true →
    (processLines parse ph s ls).1.streamingReceived = true
  | [], s, h => h
  | l :: ls, s, h => by
    simp only [processLines]
    split
    · exact processLine_flag_mono parse ph s l h
    · exact processLines_flag_mono parse ph ls _
        (processLine_flag_mono parse ph s l h)

theorem processParts_flag_mono (parse : Str → Option JsonValue) (ph : Phase) :
    ∀ (ps : List Str) (s : AppState), s.streamingReceived = true →
    (processParts parse ph s ps).1.streamingReceived = true
  | [], s, h => h
  | p :: ps, s, h => by
    simp only [processParts]
    exact processParts_flag_mono parse ph ps _
      (processLines_flag_mono parse ph _ s h)

theorem runChunks_flag_mono (parse : Str → Option JsonValue) (ph : Phase) :
    ∀ (cs : List Str) (ss : SessState), ss.app.streamingReceived = true →
    (runChunks parse ph ss cs).app.streamingReceived = true
  | [], ss, h => h
  | c :: cs, ss, h => by
    simp only [runChunks]
    split
    · exact h
    · refine runChunks_flag_mono parse ph cs _ ?_
      simp only [processChunk]
      exact processParts_flag_mono parse ph _ ss.app h

theorem runAnalyze_flag_mono (parse : Str → Option JsonValue)
    (inp : AnalyzeInput) (s : AppState) (t : Transport)
    (h : s.streamingReceived = true) :
    (runAnalyze parse inp s t).1.streamingReceived = true := by
  simp only [runAnalyze]
  split
  · exact h
  · split
    · exact h
    · cases t with
      | httpError st stx body => exact h
      | noBody => exact h
      | stream chunks =>
        dsimp only
        exact runChunks_flag_mono parse .analyze chunks _ h

/-- When no line of the batch is a done line, the line loop visits every
line: its result is the fold of single-line dispatch over all lines. -/
theorem processLines_foldl (parse : Str → Option JsonValue) (ph : Phase) :
    ∀ (ls : List Str) (s : AppState),
    (∀ l ∈ ls, lineDone parse l = false) →
    (processLines parse ph s ls).1 =
      ls.foldl (fun st l => (processLine parse ph st l).1) s
  | [], s, _ => rfl
  | l :: ls, s, h => by
    simp only [processLines, List.foldl_cons, processLine_snd]
    rw [h l (List.mem_cons_self l ls)]
    simp only [Bool.false_eq_true, if_false]
    exact processLines_foldl parse ph ls _
      (fun x hx => h x (List.mem_cons_of_mem _ hx))

/-! Claim theorems. -/

/-- C7: for every data line whose payload is not valid JSON, no error is
raised and the session continues: exactly one log line containing the
original raw payload text is appended, and the state is otherwise
unchanged (no error set, the session not finished). -/
theorem c7_invalid_json_logged (parse : Str → Option JsonValue) (ph : Phase)
    (s : AppState) (rest : Str) (h : parse (jsTrim rest) = none) :
    processLine parse ph s (dataMarker ++ rest) =
      ({ s with logs := s.logs ++ [beTag ++ jsTrim rest] }, false) :=
  processLine_data_none parse ph s rest h

/-- C7 witness: the line `data: {not json}`. -/
theorem c7_invalid_json_logged_witness :
    processLine demoParse .analyze s0 (dataMarker ++ " \x7bnot json\x7d".toList) =
      ({ s0 with logs := s0.logs ++ [beTag ++ "\x7bnot json\x7d".toList] }, false) :=
  c7_invalid_json_logged demoParse .analyze s0 (" \x7bnot json\x7d".toList) rfl

/-- C8: an analyze invocation with an empty identifying key or an empty
primary-file list aborts before any network call (the request flag is
false) with a validation error, leaving logs, result and final links
unchanged. -/
theorem c8_validation_aborts (parse : Str → Option JsonValue)
    (inp : AnalyzeInput) (s : AppState) (t : Transport)
    (h : inp.centerId = [] ∨ inp.ocrFiles = []) :
    (runAnalyze parse inp s t).2 = false ∧
    (runAnalyze parse inp s t).1.logs = s.logs ∧
    (runAnalyze parse inp s t).1.response = s.response ∧
    (runAnalyze parse inp s t).1.finalLinks = s.finalLinks ∧
    ((runAnalyze parse inp s t).1.error = some errNoCenter ∨
      (runAnalyze parse inp s t).1.error = some errNoFiles) := by
  by_cases h1 : inp.centerId.isEmpty = true
  · simp [runAnalyze, h1]
  · rcases h with h | h
    · exfalso; rw [h] at h1; exact h1 rfl
    · have h2 : inp.ocrFiles.isEmpty = true := by rw [h]; rfl
      simp [runAnalyze, h1, h2]

/-- C8 witness: an empty identifying key. -/
theorem c8_validation_aborts_witness :
    (runAnalyze demoParse ⟨[], [['f']], none⟩ s0 (.stream [])).2 = false ∧
    (runAnalyze demoParse ⟨[], [['f']], none⟩ s0 (.stream [])).1.logs = s0.logs ∧
    (runAnalyze demoParse ⟨[], [['f']], none⟩ s0 (.stream [])).1.response = s0.response ∧
    (runAnalyze demoParse ⟨[], [['f']], none⟩ s0 (.stream [])).1.finalLinks = s0.finalLinks ∧
    ((runAnalyze demoParse ⟨[], [['f']], none⟩ s0 (.stream [])).1.error = some errNoCenter ∨
      (runAnalyze demoParse ⟨[], [['f']], none⟩ s0 (.stream [])).1.error = some errNoFiles) :=
  c8_validation_aborts demoParse ⟨[], [['f']], none⟩ s0 (.stream []) (Or.inl rfl)

/-- C9: the log sequence is append-only: every dispatch step, every
session and every export run only extends the logs at the end; a fresh
analyze invocation either leaves the logs untouched (validation failure)
or resets them to a sequence that starts with the fresh start line. -/
theorem c9_logs_append_only :
    (∀ (parse : Str → Option JsonValue) (ph : Phase) (s : AppState) (l : Str),
      s.logs <+: (processLine parse ph s l).1.logs) ∧
    (∀ (parse : Str → Option JsonValue) (ph : Phase) (ss : SessState)
      (cs : List Str), ss.app.logs <+: (runChunks parse ph ss cs).app.logs) ∧
    (∀ (parse : Str → Option JsonValue) (s : AppState) (t : Transport),
      s.logs <+: (runExport parse s t).logs) ∧
    (∀ (parse : Str → Option JsonValue) (inp : AnalyzeInput) (s : AppState)
      (t : Transport),
      (runAnalyze parse inp s t).1.logs = s.logs ∨
        [msgAnalyzeStart] <+: (runAnalyze parse inp s t).1.logs) := by
  refine ⟨processLine_logs, fun parse ph ss cs => runChunks_logs parse ph cs ss,
    runExport_logs, ?_⟩
  intro parse inp s t
  by_cases h1 : inp.centerId.isEmpty = true
  · left; simp [runAnalyze, h1]
  · by_cases h2 : inp.ocrFiles.isEmpty = true
    · left; simp [runAnalyze, h1, h2]
    · right
      simp only [runAnalyze, h1, h2, Bool.false_eq_true, if_false]
      cases t with
      | httpError st stx body =>
        dsimp only
        exact pushLog_logs_of _ _ _ rfl
      | noBody =>
        dsimp only
        exact pushLog_logs_of _ _ _ rfl
      | stream chunks =>
        dsimp only
        exact runChunks_logs_of parse .analyze chunks _ _ rfl

/-- C10: in the export phase a result event modifies at most the
`output_spreadsheet_url` field of the response: the response changes only
when the payload carries a truthy `output_spreadsheet_url`, an absent
response is never created, and every other field of an existing object
response keeps its previous value. -/
theorem c10_export_result_minimal (parse : Str → Option JsonValue)
    (s : AppState) (rest : Str) (payload j : JsonValue)
    (h : parse (jsTrim rest) = some payload)
    (hev : getField payload eventKey = some (.str resultKind))
    (hdata : getField payload dataKey = some j)
    (hobj : isObjLike (some j) = true) :
    ((processLine parse .export s (dataMarker ++ rest)).1.response =
      (if truthy (getField j outUrlKey) then
        s.response.map
          (fun r => setKey r outUrlKey ((getField j outUrlKey).getD .null))
       else s.response)) ∧
    (s.response = none →
      (processLine parse .export s (dataMarker ++ rest)).1.response = none) ∧
    (∀ (fl : List (Str × JsonValue)) (k : Str),
      s.response = some (.obj fl) → k ≠ outUrlKey →
      getField (((processLine parse .export s (dataMarker ++ rest)).1.response).getD .null) k
        = getField (.obj fl) k) := by
  have hstep := processLine_data_result parse .export s rest payload j h hev hdata hobj
  have hresp : (processLine parse .export s (dataMarker ++ rest)).1.response =
      (if truthy (getField j outUrlKey) then
        s.response.map
          (fun r => setKey r outUrlKey ((getField j outUrlKey).getD .null))
       else s.response) := by
    rw [hstep]
    exact handleResultExport_response s j
  refine ⟨hresp, ?_, ?_⟩
  · intro hnone
    rw [hresp, hnone]
    split <;> rfl
  · intro fl k hfl hk
    rw [hresp, hfl]
    split
    · simp only [Option.map_some', Option.getD_some]
      exact setKey_getField_ne fl outUrlKey k _ hk
    · simp only [Option.getD_some]

/-- C10 witness: an export result `{"output_spreadsheet_url":"w"}` over
the response `{z: 9}`. -/
theorem c10_export_result_minimal_witness :
    ((processLine demoParse .export
        ⟨[], some (.obj [(['z'], .num 9)]), [], false, none⟩
        (dataMarker ++ (' ' :: jResOut))).1.response =
      (if truthy (getField (.obj [(outUrlKey, .str ['w'])]) outUrlKey) then
        (some (.obj [(['z'], .num 9)])).map
          (fun r => setKey r outUrlKey
            ((getField (.obj [(outUrlKey, .str ['w'])]) outUrlKey).getD .null))
       else some (.obj [(['z'], .num 9)]))) ∧
    ((some (.obj [(['z'], .num 9)]) : Option JsonValue) = none →
      (processLine demoParse .export
        ⟨[], some (.obj [(['z'], .num 9)]), [], false, none⟩
        (dataMarker ++ (' ' :: jResOut))).1.response = none) ∧
    (∀ (fl : List (Str × JsonValue)) (k : Str),
      (some (.obj [(['z'], .num 9)]) : Option JsonValue) = some (.obj fl) →
      k ≠ outUrlKey →
      getField (((processLine demoParse .export
          ⟨[], some (.obj [(['z'], .num 9)]), [], false, none⟩
          (dataMarker ++ (' ' :: jResOut))).1.response).getD .null) k
        = getField (.obj fl) k) :=
  c10_export_result_minimal demoParse
    ⟨[], some (.obj [(['z'], .num 9)]), [], false, none⟩
    (' ' :: jResOut) vResOut (.obj [(outUrlKey, .str ['w'])])
    rfl rfl rfl rfl

/-- C1 counterexample: in the analyze phase the result events `{a:1}` then
`{b:2}` do not merge: after the second event the response is exactly
`{b:2}` and the previously set field `a` has been cleared. -/
theorem c1_counterexample :
    (processLine demoParse .analyze s0 (dataMarker ++ (' ' :: jResA))).1.response
        = some (.obj [(['a'], .num 1)]) ∧
    (processLine demoParse .analyze
        (processLine demoParse .analyze s0 (dataMarker ++ (' ' :: jResA))).1
        (dataMarker ++ (' ' :: jResB))).1.response = some (.obj [(['b'], .num 2)]) ∧
    getField (((processLine demoParse .analyze
        (processLine demoParse .analyze s0 (dataMarker ++ (' ' :: jResA))).1
        (dataMarker ++ (' ' :: jResB))).1.response).getD .null) ['a'] = none :=
  ⟨rfl, rfl, rfl⟩

/-- C1 amended: in the analyze phase a result event whose payload passes
the object guard replaces the result wholesale with the payload — fields
absent from the payload are dropped, not preserved (the export phase
instead touches only `output_spreadsheet_url`, see C10). -/
theorem c1_analyze_result_replaces (parse : Str → Option JsonValue)
    (s : AppState) (rest : Str) (payload j : JsonValue)
    (h : parse (jsTrim rest) = some payload)
    (hev : getField payload eventKey = some (.str resultKind))
    (hdata : getField payload dataKey = some j)
    (hobj : isObjLike (some j) = true) :
    (processLine parse .analyze s (dataMarker ++ rest)).1.response = some j := by
  rw [processLine_data_result parse .analyze s rest payload j h hev hdata hobj]
  exact handleResultAnalyze_response s j

/-- C1 amended witness: one result event `{b:2}`. -/
theorem c1_analyze_result_replaces_witness :
    (processLine demoParse .analyze s0 (dataMarker ++ (' ' :: jResB))).1.response
      = some (.obj [(['b'], .num 2)]) :=
  c1_analyze_result_replaces demoParse s0 (' ' :: jResB) vResB
    (.obj [(['b'], .num 2)]) rfl rfl rfl rfl

/-- C2 counterexample: when the done frame and a following dbg frame
arrive in the same chunk batch, the dbg frame is still dispatched: its
log line `[BE] late` appears after the completion line. -/
theorem c2_counterexample :
    (runChunks demoParse .analyze ⟨s0, [], false⟩
        [frameOf jDone ++ frameOf jDbgLate]).app.logs
      = [doneMsgAnalyze, beTag ++ "late".toList] ∧
    (beTag ++ "late".toList) ∈
      (runChunks demoParse .analyze ⟨s0, [], false⟩
        [frameOf jDone ++ frameOf jDbgLate]).app.logs :=
  ⟨rfl, by decide⟩

/-- C2 amended: a done event stops the read loop: once the batch of a
chunk sets the finished latch, no later chunk is read or dispatched and
the session state is exactly the state after that chunk (frames after the
done frame inside the same batch are still dispatched, see the
counterexample). -/
theorem c2_done_stops_reading (parse : Str → Option JsonValue) (ph : Phase)
    (ss : SessState) (c : Str) (cs : List Str)
    (h1 : ss.finished = false)
    (h2 : (processChunk parse ph ss c).finished = true) :
    runChunks parse ph ss (c :: cs) = processChunk parse ph ss c := by
  simp only [runChunks, h1, Bool.false_eq_true, if_false]
  exact runChunks_of_finished parse ph cs _ h2

/-- C2 amended witness: a done chunk followed by a dbg chunk. -/
theorem c2_done_stops_reading_witness :
    runChunks demoParse .analyze ⟨s0, [], false⟩
        [frameOf jDone, frameOf jDbgLate]
      = processChunk demoParse .analyze ⟨s0, [], false⟩ (frameOf jDone) :=
  c2_done_stops_reading demoParse .analyze ⟨s0, [], false⟩ (frameOf jDone)
    [frameOf jDbgLate] rfl rfl

/-- C3 counterexample: the same logical stream (a done frame then a dbg
frame) chunked in one chunk vs two chunks yields different dispatched
logs: in one batch the trailing dbg frame is processed, across two chunks
it is not. -/
theorem c3_counterexample :
    ([frameOf jDone ++ frameOf jDbgLate] : List Str).flatten =
      ([frameOf jDone, frameOf jDbgLate] : List Str).flatten ∧
    (runChunks demoParse .analyze ⟨s0, [], false⟩
        [frameOf jDone ++ frameOf jDbgLate]).app.logs ≠
      (runChunks demoParse .analyze ⟨s0, [], false⟩
        [frameOf jDone, frameOf jDbgLate]).app.logs :=
  ⟨by simp, by decide⟩

/-- C3 amended: the frame decoder is chunk-boundary independent — the
extracted frame sequence and the retained buffer depend only on the
concatenated stream; and whenever no frame before the last extracted one
is a done frame, the dispatched session state is the fold of the
dispatcher over that frame sequence, hence identical for every chunking
(with an early done frame the dispatched events do depend on the
chunking, see the counterexample). -/
theorem c3_chunk_boundary_independence :
    (∀ cs1 cs2 : List Str, cs1.flatten = cs2.flatten →
      feedAll [] cs1 = feedAll [] cs2) ∧
    (∀ (parse : Str → Option JsonValue) (ph : Phase) (s : AppState)
      (cs : List Str) (stream : Str), cs.flatten = stream →
      (∀ p ∈ ((splitOnNN stream).dropLast).dropLast, partDone parse p = false) →
      (runChunks parse ph ⟨s, [], false⟩ cs).app =
        (processParts parse ph s ((splitOnNN stream).dropLast)).1) := by
  constructor
  · intro cs1 cs2 h
    rw [feedAll_extract cs1 [] rfl, feedAll_extract cs2 [] rfl]
    simp only [List.nil_append, h]
  · intro parse ph s cs stream hflat hdone
    have hframes : (feedAll [] cs).1 = (splitOnNN stream).dropLast := by
      rw [feedAll_extract cs [] rfl]
      simp only [List.nil_append, hflat]
      rfl
    have hd : ∀ p ∈ (feedAll [] cs).1.dropLast, partDone parse p = false := by
      rw [hframes]; exact hdone
    rw [runChunks_frames parse ph cs [] s rfl hd, hframes]

/-- C3 amended witness: a delimiter split across two chunks decodes to
the same frames as the unsplit stream, and a one-frame dbg stream
dispatches to the fold over its frames. -/
theorem c3_chunk_boundary_independence_witness :
    feedAll [] ["a\n".toList, "\nb\n\n".toList] = feedAll [] ["a\n\nb\n\n".toList] ∧
    (runChunks demoParse .analyze ⟨s0, [], false⟩ [frameOf jDbgOne]).app =
      (processParts demoParse .analyze s0 ((splitOnNN (frameOf jDbgOne)).dropLast)).1 :=
  ⟨c3_chunk_boundary_independence.1 ["a\n".toList, "\nb\n\n".toList]
      ["a\n\nb\n\n".toList] (by decide),
    c3_chunk_boundary_independence.2 demoParse .analyze s0 [frameOf jDbgOne]
      (frameOf jDbgOne) (by simp) (by decide)⟩

/-- C4 counterexample: the streamed-log flag is never reset between
sessions: after a first analyze session that saw a dbg event, a second
analyze session with no dbg event whose terminal result carries
`debug_logs: ["x"]` does not get that line appended — its final logs are
only the start and completion lines. -/
theorem c4_counterexample :
    (runAnalyze demoParse inp1
        (runAnalyze demoParse inp1 s0
          (.stream [frameOf jDbgLate ++ frameOf jDone])).1
        (.stream [frameOf jResDebug ++ frameOf jDone])).1.logs
      = [msgAnalyzeStart, doneMsgAnalyze] ∧
    ¬ ((beTag ++ ['x']) ∈
      (runAnalyze demoParse inp1
        (runAnalyze demoParse inp1 s0
          (.stream [frameOf jDbgLate ++ frameOf jDone])).1
        (.stream [frameOf jResDebug ++ frameOf jDone])).1.logs) :=
  ⟨rfl, by decide⟩

/-- C4 amended: a terminal result's debug_logs string elements are
appended exactly when no dbg event has been received since the component
mounted: the flag set by dbg lines is never cleared by any dispatch step
nor by a new analyze invocation, and a result event extends the logs by
the debug_logs lines precisely when the flag is still clear. -/
theorem c4_debug_logs_vs_flag :
    (∀ (parse : Str → Option JsonValue) (ph : Phase) (s : AppState) (l : Str),
      s.streamingReceived = true →
      (processLine parse ph s l).1.streamingReceived = true) ∧
    (∀ (parse : Str → Option JsonValue) (inp : AnalyzeInput) (s : AppState)
      (t : Transport), s.streamingReceived = true →
      (runAnalyze parse inp s t).1.streamingReceived = true) ∧
    (∀ (parse : Str → Option JsonValue) (ph : Phase) (s : AppState)
      (rest : Str) (payload j : JsonValue),
      parse (jsTrim rest) = some payload →
      getField payload eventKey = some (.str resultKind) →
      getField payload dataKey = some j →
      isObjLike (some j) = true →
      (processLine parse ph s (dataMarker ++ rest)).1.logs =
        s.logs ++ (if s.streamingReceived then [] else debugLines j)) := by
  refine ⟨processLine_flag_mono, runAnalyze_flag_mono, ?_⟩
  intro parse ph s rest payload j h hev hdata hobj
  rw [processLine_data_result parse ph s rest payload j h hev hdata hobj]
  cases ph
  · exact handleResultAnalyze_logs_eq s j
  · exact handleResultExport_logs_eq s j

/-- C4 amended witness: the flag survives a dbg line and an analyze
restart; a result with `debug_logs: ["x"]` on a fresh state appends the
line. -/
theorem c4_debug_logs_vs_flag_witness :
    (processLine demoParse .analyze ⟨[], none, [], true, none⟩
        (dataMarker ++ (' ' :: jDbgOne))).1.streamingReceived = true ∧
    (runAnalyze demoParse inp1 ⟨[], none, [], true, none⟩
        (.stream [])).1.streamingReceived = true ∧
    (processLine demoParse .analyze s0 (dataMarker ++ (' ' :: jResDebug))).1.logs =
      s0.logs ++ (if s0.streamingReceived then []
        else debugLines (.obj [(debugLogsKey, .arr [.str ['x']])])) :=
  ⟨c4_debug_logs_vs_flag.1 demoParse .analyze ⟨[], none, [], true, none⟩
      (dataMarker ++ (' ' :: jDbgOne)) rfl,
    c4_debug_logs_vs_flag.2.1 demoParse inp1 ⟨[], none, [], true, none⟩
      (.stream []) rfl,
    c4_debug_logs_vs_flag.2.2 demoParse .analyze s0 (' ' :: jResDebug)
      vResDebug (.obj [(debugLogsKey, .arr [.str ['x']])]) rfl rfl rfl rfl⟩

/-- C5 counterexample: in the analyze phase a single result event that
carries the same url in both known url fields inserts two links with the
same url — there is no duplicate check in that phase. -/
theorem c5_counterexample :
    (processLine demoParse .analyze s0
        (dataMarker ++ (' ' :: jResUrls))).1.finalLinks
      = [⟨ocrLinkName, .str ['u']⟩, ⟨sheetLinkName, .str ['u']⟩] ∧
    ((processLine demoParse .analyze s0
        (dataMarker ++ (' ' :: jResUrls))).1.finalLinks.map (fun l => l.url))
      = [.str ['u'], .str ['u']] :=
  ⟨rfl, rfl⟩

/-- C5 amended: only the export phase deduplicates by url: there a result
event whose (string) url is already present leaves the link collection
unchanged; the analyze phase appends links without any duplicate check,
so duplicates can occur (see the counterexample). -/
theorem c5_export_link_dedup (parse : Str → Option JsonValue)
    (s : AppState) (rest : Str) (payload j : JsonValue) (u : Str)
    (h : parse (jsTrim rest) = some payload)
    (hev : getField payload eventKey = some (.str resultKind))
    (hdata : getField payload dataKey = some j)
    (hobj : isObjLike (some j) = true)
    (hurl : getField j outUrlKey = some (.str u))
    (hmem : s.finalLinks.any (fun item => jsStrictEq item.url (.str u)) = true) :
    (processLine parse .export s (dataMarker ++ rest)).1.finalLinks =
      s.finalLinks := by
  rw [processLine_data_result parse .export s rest payload j h hev hdata hobj]
  exact handleResultExport_finalLinks_mem s j u hurl hmem

/-- C5 amended witness: re-inserting the url `w` already present. -/
theorem c5_export_link_dedup_witness :
    (processLine demoParse .export
        ⟨[], none, [⟨sheetLinkName, .str ['w']⟩], false, none⟩
        (dataMarker ++ (' ' :: jResOut))).1.finalLinks =
      [⟨sheetLinkName, .str ['w']⟩] :=
  c5_export_link_dedup demoParse
    ⟨[], none, [⟨sheetLinkName, .str ['w']⟩], false, none⟩
    (' ' :: jResOut) vResOut (.obj [(outUrlKey, .str ['w'])]) ['w']
    rfl rfl rfl rfl rfl rfl

/-- C6 counterexample: a frame with two dbg data lines produces two log
lines — the second data line of the frame is parsed and dispatched
too, not ignored. -/
theorem c6_counterexample :
    (processPart demoParse .analyze s0
        ("data: ".toList ++ jDbgOne ++ '\n' :: ("data: ".toList ++ jDbgTwo))).1.logs
      = [beTag ++ "one".toList, beTag ++ "two".toList] :=
  rfl

/-- C6 amended: every data line of a frame is dispatched in order, not
only the first: as long as no line of the frame is a done event,
processing the frame folds the dispatcher over all of its trimmed
lines. -/
theorem c6_every_data_line_dispatched (parse : Str → Option JsonValue)
    (ph : Phase) (s : AppState) (p : Str)
    (h : ∀ l ∈ frameLines p, lineDone parse l = false) :
    (processPart parse ph s p).1 =
      (frameLines p).foldl (fun st l => (processLine parse ph st l).1) s :=
  processLines_foldl parse ph (frameLines p) s h

/-- C6 amended witness: the two-dbg-line frame. -/
theorem c6_every_data_line_dispatched_witness :
    (processPart demoParse .analyze s0
        ("data: ".toList ++ jDbgOne ++ '\n' :: ("data: ".toList ++ jDbgTwo))).1 =
      (frameLines ("data: ".toList ++ jDbgOne ++ '\n' ::
          ("data: ".toList ++ jDbgTwo))).foldl
        (fun st l => (processLine demoParse .analyze st l).1) s0 :=
  c6_every_data_line_dispatched demoParse .analyze s0 _ (by decide)

end UrunoStream
